import Mathlib

/-!
# Verification of the River Permit Monitor core

A shallow embedding, in Lean 4, of the core of `river_permit_bot.py`
(the `PermitConfigManager` registry, the division-discovery probe, the
availability diff-and-notify cycle, and the Telegram command dispatcher),
together with theorems settling the specification claims about it.

Python `dict`s keyed by strings or ints are modelled as association
lists (`List (κ × α)`); insertion order is preserved, as in Python.
Machine I/O (HTTP, file system, Telegram transport) is modelled by
explicit parameters: a fetch oracle for the availability provider, a
`writeOk` flag for durable writes, and the parsed content of files.

The file is organised as definitions first (the embedding of the
program), then the lemmas and claim theorems about them.
-/

namespace RiverBot

/-! ## Association-list model of Python dicts -/

namespace PyDict

variable {κ : Type} {α : Type} [DecidableEq κ]

/-- `d[k]` lookup that returns `none` when the key is absent
(the first binding wins, matching a duplicate-free Python dict). -/
def get? (l : List (κ × α)) (k : κ) : Option α :=
  match l with
  | [] => none
  | e :: t => if e.1 = k then some e.2 else get? t k

/-- `k in d` membership test. -/
def hasKey (l : List (κ × α)) (k : κ) : Bool :=
  match l with
  | [] => false
  | e :: t => if e.1 = k then true else hasKey t k

/-- `d[k] = v` assignment: replaces the binding in place when the key is
present (keeping its position, as Python dicts do), otherwise appends. -/
def set (l : List (κ × α)) (k : κ) (v : α) : List (κ × α) :=
  match l with
  | [] => [(k, v)]
  | e :: t => if e.1 = k then (k, v) :: t else e :: set t k v

/-- `del d[k]`: removes the binding for `k`. -/
def erase (l : List (κ × α)) (k : κ) : List (κ × α) :=
  l.filter (fun e => e.1 ≠ k)

/-- `list(d.keys())`. -/
def keys (l : List (κ × α)) : List κ :=
  l.map Prod.fst

end PyDict

/-! ## `PermitConfigManager` (registry of monitored permits)

The in-memory state is `self.permits : dict[str, {"name": str,
"divisions": dict[int, str]}]`.  Durable writes go through
`_save_permits`, which catches every exception itself; the `writeOk`
flag says whether the `json.dump` write succeeds.  Python's shallow
`dict.copy()` means the nested `divisions` dict is shared between the
copy and the original, which `remove_division` / `add_division` mutate
in place; the model below reproduces the resulting observable state. -/

/-- A permit value `{"name": ..., "divisions": {...}}`.  Divisions map a
division id to its display name. -/
structure Permit where
  name : String
  divisions : List (Nat × String)
deriving DecidableEq, Repr

/-- The registry's permits dict: permit id → permit value. -/
abbrev Permits := List (String × Permit)

/-- The built-in `DEFAULT_PERMITS` table used for first-run migration. -/
def DEFAULT_PERMITS : Permits :=
  [("250014", { name := "Dinosaur Green And Yampa River Permits",
                divisions := [(371, "Deerlodge Park, Yampa River"),
                              (380, "Gates of Lodore, Green River")] })]

/-- `_save_permits`: writes the new table to disk and, on success, sets
`self.permits` to it.  Every exception is caught and only logged inside
this method, so a failed write (`writeOk = false`) leaves the in-memory
table unchanged and never raises to the caller. -/
def save_permits (writeOk : Bool) (current new : Permits) : Permits :=
  if writeOk then new else current

/-- `add_permit`: copies the table, binds `permit_id` to a fresh permit
value (overwriting any existing binding) and saves.  The `except` branch
returning `False` is unreachable because `_save_permits` swallows its
own exceptions, so the returned flag is always `true`. -/
def add_permit (writeOk : Bool) (st : Permits) (permit_id name : String)
    (divisions : List (Nat × String)) : Permits × Bool :=
  (save_permits writeOk st (PyDict.set st permit_id ⟨name, divisions⟩), true)

/-- `remove_permit`: `false` when the permit is absent; otherwise deletes
the binding from a copied table and saves (a failed save keeps the old
in-memory table but still returns `true`). -/
def remove_permit (writeOk : Bool) (st : Permits) (permit_id : String) :
    Permits × Bool :=
  if PyDict.hasKey st permit_id then
    (save_permits writeOk st (PyDict.erase st permit_id), true)
  else (st, false)

/-- `add_division`: `false` when the permit is absent; otherwise binds
`division_id` in the permit's nested divisions dict.  The nested dict is
shared between `self.permits` and its shallow copy, so the new division
is visible in memory whether or not the save succeeds (hence `writeOk`
does not affect the observable in-memory state). -/
def add_division (writeOk : Bool) (st : Permits) (permit_id : String)
    (division_id : Nat) (division_name : String) : Permits × Bool :=
  match PyDict.get? st permit_id with
  | none => (st, false)
  | some p =>
    let _ := writeOk
    let p' : Permit := ⟨p.name, PyDict.set p.divisions division_id division_name⟩
    (PyDict.set st permit_id p', true)

/-- `remove_division`: `false` when the permit or the division is absent.
Otherwise the division is deleted from the (shared) nested dict; when it
was the last division and the save succeeds, the whole permit binding is
removed from the saved table.  When the save fails the old top-level
table stays in memory — with the nested deletion still applied, so an
emptied permit is then left present with zero divisions. -/
def remove_division (writeOk : Bool) (st : Permits) (permit_id : String)
    (division_id : Nat) : Permits × Bool :=
  match PyDict.get? st permit_id with
  | none => (st, false)
  | some p =>
    if PyDict.hasKey p.divisions division_id then
      let divs' := PyDict.erase p.divisions division_id
      if writeOk ∧ divs' = [] then
        (PyDict.erase st permit_id, true)
      else
        (PyDict.set st permit_id ⟨p.name, divs'⟩, true)
    else (st, false)

/-! ## Registry operation sequences and the no-empty-divisions invariant -/

/-- One public mutation of the `PermitConfigManager` registry. -/
inductive RegOp where
  | addPermit (permit_id name : String) (divisions : List (Nat × String))
  | removePermit (permit_id : String)
  | addDivision (permit_id : String) (division_id : Nat) (division_name : String)
  | removeDivision (permit_id : String) (division_id : Nat)
deriving DecidableEq, Repr

/-- Apply one registry operation with a succeeding durable write. -/
def applyOp (st : Permits) : RegOp → Permits
  | .addPermit pid nm divs => (add_permit true st pid nm divs).1
  | .removePermit pid => (remove_permit true st pid).1
  | .addDivision pid did dn => (add_division true st pid did dn).1
  | .removeDivision pid did => (remove_division true st pid did).1

/-- Apply a sequence of registry operations in order. -/
def runOps (st : Permits) (ops : List RegOp) : Permits :=
  ops.foldl applyOp st

/-- No permit bound in the registry has an empty divisions map. -/
def NoDivisionlessPermit (st : Permits) : Prop :=
  ∀ e ∈ st, e.2.divisions ≠ []

/-- The operation, if it is an `addPermit`, carries a nonempty divisions map. -/
def opAddsNonempty : RegOp → Prop
  | .addPermit _ _ divs => divs ≠ []
  | _ => True

/-! ## Heap model for `get_permits` (reference aliasing)

`get_permits` returns `self.permits.copy()` — a *shallow* copy.  To
reason about what a caller can reach through the returned value, Python
objects are placed in an explicit heap: the top-level permits dict maps
permit ids to heap addresses of permit dicts, and each permit dict holds
a heap address of its nested divisions dict.  `dict.copy()` allocates a
new top-level dict holding the same addresses. -/

/-- A heap object: the top-level permits dict (permit id → address of a
permit dict), a permit dict `{"name": ..., "divisions": <ref>}`, or a
divisions dict. -/
inductive PyObj where
  | topDict (entries : List (String × Nat))
  | permitDict (name : String) (divAddr : Nat)
  | divDict (entries : List (Nat × String))
deriving DecidableEq, Repr

/-- The Python heap: address → object. -/
abbrev Heap := List (Nat × PyObj)

/-- `get_permits`: `return self.permits.copy()` — allocates, at the
fresh address `fresh`, a new top-level dict with the same entries (the
same permit-object references) and returns its address. -/
def get_permits (h : Heap) (selfAddr fresh : Nat) : Heap × Nat :=
  match PyDict.get? h selfAddr with
  | some (.topDict es) => (PyDict.set h fresh (.topDict es), fresh)
  | _ => (h, fresh)

/-- Dereference one permit address down to its observable
`(name, divisions)` value. -/
def readPermit (h : Heap) (pa : Nat) : Option (String × List (Nat × String)) :=
  match PyDict.get? h pa with
  | some (.permitDict nm da) =>
    match PyDict.get? h da with
    | some (.divDict des) => some (nm, des)
    | _ => none
  | _ => none

/-- The registry contents as observed through a top-level dict address. -/
def viewPermits (h : Heap) (a : Nat) :
    List (String × Option (String × List (Nat × String))) :=
  match PyDict.get? h a with
  | some (.topDict es) => es.map (fun e => (e.1, readPermit h e.2))
  | _ => []

/-- The heap addresses reachable from a top-level dict: the dict itself,
its permit objects, and their divisions dicts. -/
def reachable (h : Heap) (a : Nat) : List Nat :=
  match PyDict.get? h a with
  | some (.topDict es) =>
    a :: (es.map (fun e => e.2) ++
      es.filterMap (fun e =>
        match PyDict.get? h e.2 with
        | some (.permitDict _ da) => some da
        | _ => none))
  | _ => [a]

/-- Caller-side mutation `d[pid]['divisions'][did] = nm` executed on the
dict at address `a`: dereferences down to the (shared) divisions dict
and updates it in the heap. -/
def mutateDivisions (h : Heap) (a : Nat) (pid : String) (did : Nat)
    (nm : String) : Heap :=
  match PyDict.get? h a with
  | some (.topDict es) =>
    match PyDict.get? es pid with
    | some pa =>
      match PyDict.get? h pa with
      | some (.permitDict _ da) =>
        match PyDict.get? h da with
        | some (.divDict des) => PyDict.set h da (.divDict (PyDict.set des did nm))
        | _ => h
      | _ => h
    | _ => h
  | _ => h

/-- A concrete heap holding the default registry: the top-level permits
dict at address 0, the single permit dict at address 1, its divisions
dict at address 2.  Addresses 3 and up are free. -/
def heap0 : Heap :=
  [(0, .topDict [("250014", 1)]),
   (1, .permitDict "Dinosaur Green And Yampa River Permits" 2),
   (2, .divDict [(371, "Deerlodge Park, Yampa River")])]

/-! ## `discover_divisions` structured-range scan

The probe itself (`_test_division`, one HTTP request per candidate id)
is abstracted as a `valid : Nat → Bool` oracle; every loop iteration
issues exactly one probe, so the list of iterated candidate ids is the
list of probed ids.  Division names and the `time.sleep` rate limit do
not affect control flow and are omitted; the fallback scan over common
ids (entered only when the structured ranges found nothing) is outside
the claim. -/

/-- Python `range(a, b)`. -/
def rangeList (a b : Nat) : List Nat :=
  (List.range (b - a)).map (a + ·)

/-- The structured candidate ranges of `discover_divisions`. -/
def test_ranges : List (List Nat) :=
  [rangeList 1 20, rangeList 300 400, rangeList 1000 1100]

/-- `min(divisions.keys())` over the list of found division ids. -/
def listMin : List Nat → Nat
  | [] => 0
  | h :: t => t.foldl min h

/-- The early-exit test
`len(divisions) > 0 and div_id > min(divisions.keys()) + 50`,
evaluated after the current candidate has been probed (and recorded when
valid). -/
def stopCond (found : List Nat) (div_id : Nat) : Bool :=
  !found.isEmpty && decide (listMin found + 50 < div_id)

/-- The inner `for div_id in test_range` loop: probes every iterated
candidate, records the valid ones, and `break`s out of this range as
soon as the early-exit test holds.  Returns the accumulated found ids
and the candidates probed in this range. -/
def scanRange (valid : Nat → Bool) : List Nat → List Nat → List Nat × List Nat
  | [], found => (found, [])
  | div_id :: rest, found =>
    let found' := if valid div_id then found ++ [div_id] else found
    if stopCond found' div_id then (found', [div_id])
    else
      let r := scanRange valid rest found'
      (r.1, div_id :: r.2)

/-- The outer `for test_range in test_ranges` loop: the `break` of
`scanRange` only leaves the inner loop, so scanning resumes with the
next range.  Returns (found ids, all probed candidate ids in order). -/
def discoverScan (valid : Nat → Bool) : List Nat × List Nat :=
  test_ranges.foldl
    (fun acc r =>
      let s := scanRange valid r acc.1
      (s.1, acc.2 ++ s.2))
    ([], [])

/-! ## Availability fetch, state store, and the diff-and-notify cycle -/

/-- The provider's per-date `{remaining, total}` record. -/
structure AvailInfo where
  remaining : Nat
  total : Nat
deriving DecidableEq, Repr

/-- Outcome of one availability request for a division: a parsed
`payload.date_availability` mapping, or one of the failure modes the
code handles (`resp.status_code != 200`, a 200 body without the expected
shape, or a raised error such as a timeout). -/
inductive FetchResult where
  | ok (date_availability : List (String × AvailInfo))
  | httpError (code : Nat)
  | badShape
  | exn
deriving DecidableEq, Repr

/-- The availability provider, abstracted over `(permit_id, division_id)`. -/
abbrev FetchOracle := String → Nat → FetchResult

/-- `check_division_availability`: on a successful fetch, keeps exactly
the dates with `remaining > 0` (as the `available_dates` dict); on an
HTTP error, malformed body, or raised error it logs and returns `{}`.
The date keys are taken as already in `YYYY-MM-DD` form — the
`fromisoformat`/`strftime('%Y-%m-%d')` normalisation is the identity on
such keys. -/
def check_division_availability (r : FetchResult) : List (String × AvailInfo) :=
  match r with
  | .ok dates => dates.filter (fun e => decide (0 < e.2.remaining))
  | _ => []

/-- `set(current_dates.keys())`. -/
def current_available (r : FetchResult) : Finset String :=
  ((check_division_availability r).map Prod.fst).toFinset

/-- `self.previous_availability`: state-key → set of available dates. -/
abbrev Store := List (String × Finset String)

/-- `self.previous_availability.get(state_key, set())`. -/
def Store.get (s : Store) (k : String) : Finset String :=
  match PyDict.get? s k with
  | some v => v
  | none => ∅

/-- `self.previous_availability[state_key] = dates`. -/
def Store.set (s : Store) (k : String) (v : Finset String) : Store :=
  PyDict.set s k v

/-- `state_key = f"{permit_id}:{division_id}"`. -/
def state_key (permit_id : String) (division_id : Nat) : String :=
  permit_id ++ ":" ++ toString division_id

/-- `_load_state`: a missing file yields `{}`; an existing file whose
JSON fails to load yields `{}` after logging the error; otherwise the
stored date lists are converted back to sets. -/
def load_state (fileExists : Bool)
    (contents : Option (List (String × List String))) : Store :=
  if fileExists then
    match contents with
    | some data => data.map (fun e => (e.1, e.2.toFinset))
    | none => []
  else []

/-- `self.is_first_run = not os.path.exists(STATE_FILE)` — note this
looks only at file *existence*, not at whether the load succeeded. -/
def is_first_run (fileExists : Bool) : Bool :=
  !fileExists

/-- One `(permit_id, permit_name, division_id, division_name)` item of
the nested registry iteration in `check_and_notify`. -/
structure DivEntry where
  permit_id : String
  permit_name : String
  division_id : Nat
  division_name : String
deriving DecidableEq, Repr

/-- The division entries of the registry in iteration order. -/
def divisionPairs (reg : Permits) : List DivEntry :=
  reg.flatMap (fun pc => pc.2.divisions.map (fun dd => ⟨pc.1, pc.2.name, dd.1, dd.2⟩))

/-- The state key of one division entry. -/
def keyOf (e : DivEntry) : String :=
  state_key e.permit_id e.division_id

/-- The state keys of all registry divisions, in iteration order. -/
def pairKeys (reg : Permits) : List String :=
  (divisionPairs reg).map keyOf

/-- An outbound Telegram message of the availability cycle: the one-time
first-run summary (carrying its total count of available dates), or one
aggregated new-availability notification per division (carrying the
formatted per-date lines).  The surrounding HTML text is abbreviated to
these data. -/
inductive Msg where
  | summary (total_available : Nat)
  | notification (permit_id : String) (division_id : Nat)
      (permit_name division_name : String) (dates : List (String × AvailInfo))
deriving DecidableEq, Repr

/-- `current_dates[date]` (every reported new date is a key of
`current_dates`, so the default is unreachable). -/
def infoFor (current_dates : List (String × AvailInfo)) (d : String) : AvailInfo :=
  match PyDict.get? current_dates d with
  | some i => i
  | none => ⟨0, 0⟩

/-- `new_dates = current_available - previous_available`
(line 822 of `river_permit_bot.py`). -/
def new_dates (current_available previous_available : Finset String) : Finset String :=
  current_available \ previous_available

/-- The `for date in sorted(new_dates)` message body: one
`(date, info)` line per new date, in Python's sorted (lexicographic)
order — which on fixed-width `YYYY-MM-DD` strings is ascending calendar
order. -/
def dateLines (current_dates : List (String × AvailInfo)) (nd : Finset String) :
    List (String × AvailInfo) :=
  (nd.sort (· ≤ ·)).map (fun d => (d, infoFor current_dates d))

/-- Whether a message is a per-division new-availability notification
(as opposed to the first-run summary). -/
def isNewAvailMsg : Msg → Bool
  | .notification _ _ _ _ _ => true
  | .summary _ => false

/-- The notification messages sent for one division given its previous
set: none when `new_dates` is empty, otherwise the single aggregated
message. -/
def notifOf (fetch : FetchOracle) (prev : Finset String) (e : DivEntry) : List Msg :=
  let current_dates := check_division_availability (fetch e.permit_id e.division_id)
  let cur := (current_dates.map Prod.fst).toFinset
  let nd := new_dates cur prev
  if nd = ∅ then []
  else [Msg.notification e.permit_id e.division_id e.permit_name e.division_name
          (dateLines current_dates nd)]

/-- One iteration of the normal-cycle division loop: fetch, diff against
the stored set (emitting at most one aggregated message), then
`self.previous_availability[state_key] = current_available`. -/
def stepDivision (fetch : FetchOracle) (st : Store) (e : DivEntry) :
    Store × List Msg :=
  let cur := current_available (fetch e.permit_id e.division_id)
  (Store.set st (keyOf e) cur, notifOf fetch (Store.get st (keyOf e)) e)

/-- The normal-cycle loop over all divisions, threading the store and
collecting the sent messages in order. -/
def runNormal (fetch : FetchOracle) : List DivEntry → Store → Store × List Msg
  | [], st => (st, [])
  | e :: rest, st =>
    let s1 := stepDivision fetch st e
    let r := runNormal fetch rest s1.1
    (r.1, s1.2 ++ r.2)

/-- The first-run loop: stores every division's current set and
accumulates the total count of available dates for the summary; no
per-division notification is built. -/
def runFirstRun (fetch : FetchOracle) : List DivEntry → Store → Store × Nat
  | [], st => (st, 0)
  | e :: rest, st =>
    let cur := current_available (fetch e.permit_id e.division_id)
    let r := runFirstRun fetch rest (Store.set st (keyOf e) cur)
    (r.1, cur.card + r.2)

/-- The store evolution common to both loops: each division's key is
set to its freshly fetched set, in iteration order. -/
def seedStore (fetch : FetchOracle) : List DivEntry → Store → Store
  | [], st => st
  | e :: rest, st =>
    seedStore fetch rest
      (Store.set st (keyOf e) (current_available (fetch e.permit_id e.division_id)))

/-- The monitor's mutable state relevant to the cycle. -/
structure MonitorState where
  previous_availability : Store
  is_first_run : Bool
deriving DecidableEq

/-- `check_and_notify`: on first run, fetch everything, seed the store
silently and send the one summary message; otherwise run the
diff-and-notify loop.  (The `_save_state` persistence call mutates no
in-memory state and is omitted.) -/
def check_and_notify (fetch : FetchOracle) (reg : Permits) (ms : MonitorState) :
    MonitorState × List Msg :=
  if ms.is_first_run then
    let r := runFirstRun fetch (divisionPairs reg) ms.previous_availability
    (⟨r.1, false⟩, [Msg.summary r.2])
  else
    let r := runNormal fetch (divisionPairs reg) ms.previous_availability
    (⟨r.1, false⟩, r.2)

/-- The messages of a cycle that are new-availability notifications for
the given `(permit_id, division_id)`. -/
def notificationsFor (pid : String) (did : Nat) (msgs : List Msg) : List Msg :=
  msgs.filter (fun m =>
    match m with
    | .notification p d _ _ _ => p == pid && d == did
    | _ => false)

/-- Whether a fetch outcome is one of the handled failure modes. -/
def isFetchFailure : FetchResult → Bool
  | .ok _ => false
  | _ => true

/-- A one-permit, one-division registry used in concrete scenarios. -/
def reg1 : Permits :=
  [("250014", { name := "Dinosaur Green And Yampa River Permits",
                divisions := [(371, "Deerlodge Park, Yampa River")] })]

/-- A provider that fails with HTTP 503 on every request. -/
def fetchFail : FetchOracle := fun _ _ => .httpError 503

/-- A provider reporting one available date on every request. -/
def fetchOne : FetchOracle := fun _ _ => .ok [("2025-07-10", ⟨2, 4⟩)]

/-- A stored state remembering one available date for `250014:371`. -/
def storeC3 : Store := [("250014:371", {"2025-07-10"})]

/-- A provider reporting two available dates, listed out of calendar
order, on every request. -/
def fetchTwo : FetchOracle :=
  fun _ _ => .ok [("2025-07-12", ⟨1, 4⟩), ("2025-07-10", ⟨2, 4⟩)]

/-! ## Telegram command processing

`_process_telegram_update` and the `_handle_*` methods.  The reply
texts are abbreviated to short tags (the full HTML bodies carry no
control flow); each `self.send_telegram_message(...)` call appends one
entry to the returned message list, in call order.  The two provider
lookups (`get_permit_details`, `get_division_details`) and
`discover_divisions` are abstracted as a `DiscoveryOracle`. -/

/-- Python `str.strip()` / `str.split()` whitespace test (the common
whitespace characters). -/
def isSpace (c : Char) : Bool :=
  c == ' ' || c == '\t' || c == '\n' || c == '\r'

/-- Python `str.strip()`. -/
def pyStrip (s : String) : String :=
  String.mk (((s.data.dropWhile isSpace).reverse.dropWhile isSpace).reverse)

/-- Python `str.split()` (split on whitespace runs, dropping empties);
the fuel is an upper bound on the number of tokens, each recursion
consumes at least one character. -/
def pySplitAux : Nat → List Char → List (List Char)
  | 0, _ => []
  | fuel + 1, cs =>
    match cs.dropWhile isSpace with
    | [] => []
    | c :: rest =>
      ((c :: rest).takeWhile (fun x => !isSpace x)) ::
        pySplitAux fuel ((c :: rest).dropWhile (fun x => !isSpace x))

/-- Python `command.split()`. -/
def pySplit (s : String) : List String :=
  (pySplitAux s.data.length s.data).map String.mk

/-- Python `str.split(maxsplit=m)`: after `m` splits the remainder
(leading whitespace stripped, the rest verbatim) is one final element. -/
def pySplitMaxAux : Nat → Nat → List Char → List (List Char)
  | _, 0, cs =>
    (match cs.dropWhile isSpace with
     | [] => []
     | r => [r])
  | 0, _ + 1, _ => []
  | fuel + 1, m + 1, cs =>
    match cs.dropWhile isSpace with
    | [] => []
    | c :: rest =>
      ((c :: rest).takeWhile (fun x => !isSpace x)) ::
        pySplitMaxAux fuel m ((c :: rest).dropWhile (fun x => !isSpace x))

/-- Python `command.split(maxsplit=m)`. -/
def pySplitMax (maxsplit : Nat) (s : String) : List String :=
  (pySplitMaxAux s.data.length maxsplit s.data).map String.mk

/-- Python `int(s)` as used for division ids: optional surrounding
whitespace, optional `+`, then decimal digits (the handlers only ever
store nonnegative ids; other accepted Python forms are out of scope of
the claims, which need only the ok/`ValueError` distinction). -/
def pyParseNat (s : String) : Option Nat :=
  let cs := (pyStrip s).data
  let ds := match cs with
    | '+' :: t => t
    | t => t
  if ds ≠ [] ∧ ds.all (fun c => c.isDigit) then
    some (ds.foldl (fun acc c => acc * 10 + (c.toNat - 48)) 0)
  else none

/-- Python `text.startswith(pre)`. -/
def startsWithPy (s pre : String) : Bool :=
  List.isPrefixOf pre.data s.data

/-- The provider-facing lookups a command handler may perform:
`get_permit_details` (a name, or `None` on failure),
`get_division_details`, and the result of `discover_divisions`. -/
structure DiscoveryOracle where
  permitDetails : Option String
  divisionDetails : Option String
  discovered : List (Nat × String)
  discoverErrors : List String

/-- One Telegram message: optional text and the sender chat id (already
stringified, as the code compares `str(chat_id)` with the configured
channel id). -/
structure TgMessage where
  text? : Option String
  chat_id : String

/-- One Telegram update: optionally a message. -/
structure TgUpdate where
  message? : Option TgMessage

/-- The tail of `_handle_start_monitoring` once the permit name is
settled: send the "discovering divisions" progress message, then report
the probe outcome (registering the permit when divisions were found). -/
def monitorWithName (o : DiscoveryOracle) (writeOk : Bool) (st : Permits)
    (permit_id : String) (preMsgs : List String) (permit_name : String) :
    Permits × List String :=
  let msgs := preMsgs ++ ["discovering divisions for " ++ permit_id]
  if o.discovered ≠ [] then
    match add_permit writeOk st permit_id permit_name o.discovered with
    | (st', true) => (st', msgs ++ ["started monitoring " ++ permit_id])
    | (st', false) => (st', msgs ++ ["error: failed to add permit " ++ permit_id])
  else (st, msgs ++ ["failed to discover divisions for " ++ permit_id])

/-- `_handle_start_monitoring` (`/monitor [permit-id] [name]`): usage
reply when no permit id; "already monitoring" reply when registered;
otherwise resolve the name (from the argument, or via a lookup preceded
by a progress message) and continue with `monitorWithName`. -/
def handle_start_monitoring (o : DiscoveryOracle) (writeOk : Bool) (st : Permits)
    (command : String) : Permits × List String :=
  match pySplitMax 2 command with
  | [] => (st, ["usage: /monitor [permit-id] [permit-name]"])
  | [_] => (st, ["usage: /monitor [permit-id] [permit-name]"])
  | _ :: permit_id :: rest =>
    if PyDict.hasKey st permit_id then
      (st, ["already monitoring " ++ permit_id])
    else
      match rest with
      | nm :: _ => monitorWithName o writeOk st permit_id [] nm
      | [] =>
        monitorWithName o writeOk st permit_id
          ["discovering permit details for " ++ permit_id]
          (match o.permitDetails with
           | some n => n
           | none => "Permit " ++ permit_id)

/-- `_handle_stop_monitoring` (`/unmonitor [permit-id]`): exactly one
reply in every branch. -/
def handle_stop_monitoring (writeOk : Bool) (st : Permits) (command : String) :
    Permits × List String :=
  match pySplit command with
  | [_, permit_id] =>
    if PyDict.hasKey st permit_id then
      match remove_permit writeOk st permit_id with
      | (st', true) => (st', ["stopped monitoring " ++ permit_id])
      | (st', false) => (st', ["error: failed to remove " ++ permit_id])
    else (st, ["not monitoring " ++ permit_id])
  | _ => (st, ["usage: /unmonitor [permit-id]"])

/-- The tail of `_handle_monitor_division` once the division name is
settled: create the permit (after a permit-details progress message)
when absent, else report "already monitoring" or add the division. -/
def monitorDivisionNamed (o : DiscoveryOracle) (writeOk : Bool) (st : Permits)
    (permit_id didStr : String) (division_id : Nat) (preMsgs : List String)
    (division_name : String) : Permits × List String :=
  match PyDict.get? st permit_id with
  | none =>
    let msgs := preMsgs ++ ["discovering permit details for " ++ permit_id]
    let permit_name := match o.permitDetails with
      | some n => n
      | none => "Permit " ++ permit_id
    match add_permit writeOk st permit_id permit_name
        [(division_id, division_name)] with
    | (st', true) => (st', msgs ++ ["created permit and added division " ++ didStr])
    | (st', false) => (st', msgs ++ ["error: failed to create permit " ++ permit_id])
  | some p =>
    if PyDict.hasKey p.divisions division_id then
      (st, preMsgs ++ ["already monitoring division " ++ didStr])
    else
      match add_division writeOk st permit_id division_id division_name with
      | (st', true) => (st', preMsgs ++ ["added division to permit " ++ didStr])
      | (st', false) =>
        (st', preMsgs ++ ["error: failed to add division " ++ didStr])

/-- `_handle_monitor_division`
(`/monitor_division [permit-id] [division-id] [name]`). -/
def handle_monitor_division (o : DiscoveryOracle) (writeOk : Bool) (st : Permits)
    (command : String) : Permits × List String :=
  match pySplitMax 3 command with
  | _ :: permit_id :: didStr :: rest =>
    (match pyParseNat didStr with
     | none => (st, ["error: division id must be a number"])
     | some division_id =>
       match rest with
       | nm :: _ =>
         monitorDivisionNamed o writeOk st permit_id didStr division_id [] nm
       | [] =>
         monitorDivisionNamed o writeOk st permit_id didStr division_id
           ["discovering division name for " ++ didStr]
           (match o.divisionDetails with
            | some n => n
            | none => "Division " ++ didStr))
  | _ => (st, ["usage: /monitor_division [permit-id] [division-id] [name]"])

/-- `_handle_unmonitor_division`
(`/unmonitor_division [permit-id] [division-id]`): exactly one reply in
every branch. -/
def handle_unmonitor_division (writeOk : Bool) (st : Permits)
    (command : String) : Permits × List String :=
  match pySplit command with
  | [_, permit_id, didStr] =>
    (match pyParseNat didStr with
     | none => (st, ["error: division id must be a number"])
     | some division_id =>
       match PyDict.get? st permit_id with
       | none => (st, ["not monitoring permit " ++ permit_id])
       | some p =>
         if PyDict.hasKey p.divisions division_id then
           match remove_division writeOk st permit_id division_id with
           | (st', true) =>
             if PyDict.hasKey st' permit_id then
               (st', ["stopped monitoring division " ++ didStr])
             else
               (st', ["removed last division; permit removed " ++ permit_id])
           | (st', false) =>
             (st', ["error: failed to remove division " ++ didStr])
         else (st, ["not monitoring division " ++ didStr]))
  | _ => (st, ["usage: /unmonitor_division [permit-id] [division-id]"])

/-- `_handle_list_permits`: one reply either way. -/
def handle_list_permits (st : Permits) : List String :=
  if st.isEmpty then ["no permits monitored"] else ["currently monitoring"]

/-- `_handle_help`: the static usage text. -/
def help_reply : List String := ["help text"]

/-- Whether stripped text is dispatched to any handler (the six
`startswith`/equality tests of `_process_telegram_update`). -/
def recognizedCmd (text : String) : Bool :=
  startsWithPy text "/monitor_division" ||
  startsWithPy text "/unmonitor_division" ||
  startsWithPy text "/monitor" ||
  startsWithPy text "/unmonitor" ||
  text == "/list" || text == "/help"

/-- `_process_telegram_update`: skip updates without message text,
ignore senders other than the configured channel, then dispatch on the
command prefix in the source's order; unrecognized text falls through
silently. -/
def process_telegram_update (channel_id : String) (o : DiscoveryOracle)
    (writeOk : Bool) (st : Permits) (u : TgUpdate) : Permits × List String :=
  match u.message? with
  | none => (st, [])
  | some msg =>
    match msg.text? with
    | none => (st, [])
    | some raw =>
      let text := pyStrip raw
      if msg.chat_id ≠ channel_id then (st, [])
      else if startsWithPy text "/monitor_division" then
        handle_monitor_division o writeOk st text
      else if startsWithPy text "/unmonitor_division" then
        handle_unmonitor_division writeOk st text
      else if startsWithPy text "/monitor" then
        handle_start_monitoring o writeOk st text
      else if startsWithPy text "/unmonitor" then
        handle_stop_monitoring writeOk st text
      else if text == "/list" then (st, handle_list_permits st)
      else if text == "/help" then (st, help_reply)
      else (st, [])

/-- A discovery oracle whose probes all succeed. -/
def oracleA : DiscoveryOracle :=
  { permitDetails := some "Rio Chama"
    divisionDetails := some "Main Stem"
    discovered := [(5, "Division 5")]
    discoverErrors := [] }

/-! # Lemmas and claim theorems -/

namespace PyDict

variable {κ : Type} {α : Type} [DecidableEq κ]

theorem get?_set_self (l : List (κ × α)) (k : κ) (v : α) :
    get? (set l k v) k = some v := by
  induction l with
  | nil => simp [set, get?]
  | cons e t ih =>
    by_cases h : e.1 = k
    · simp [set, h, get?]
    · simp [set, h, get?, ih]

theorem get?_set_ne (l : List (κ × α)) (k k' : κ) (v : α) (h : k' ≠ k) :
    get? (set l k v) k' = get? l k' := by
  have hk' : ¬ k = k' := fun hh => h hh.symm
  induction l with
  | nil => simp [set, get?, hk']
  | cons e t ih =>
    by_cases he : e.1 = k
    · have he' : ¬ e.1 = k' := fun hh => hk' (he.symm.trans hh)
      simp [set, he, get?, hk', he']
    · by_cases he' : e.1 = k'
      · simp [set, he, get?, he', h]
      · simp [set, he, get?, he', ih]

theorem hasKey_iff_get? (l : List (κ × α)) (k : κ) :
    hasKey l k = true ↔ ∃ v, get? l k = some v := by
  induction l with
  | nil => simp [hasKey, get?]
  | cons e t ih =>
    by_cases h : e.1 = k
    · simp [hasKey, get?, h]
    · simp [hasKey, get?, h, ih]

theorem get?_erase (l : List (κ × α)) (k : κ) :
    get? (erase l k) k = none := by
  induction l with
  | nil => simp [erase, get?]
  | cons e t ih =>
    by_cases h : e.1 = k
    · simpa [erase, h] using ih
    · simpa [erase, get?, h] using ih

theorem hasKey_erase (l : List (κ × α)) (k : κ) :
    hasKey (erase l k) k = false := by
  induction l with
  | nil => simp [erase, hasKey]
  | cons e t ih =>
    by_cases h : e.1 = k
    · simpa [erase, h] using ih
    · simpa [erase, hasKey, h] using ih

theorem mem_set (l : List (κ × α)) (k : κ) (v : α) (e : κ × α)
    (he : e ∈ set l k v) : e ∈ l ∨ e = (k, v) := by
  induction l with
  | nil => simpa [set] using he
  | cons f t ih =>
    by_cases h : f.1 = k
    · simp only [set, h, if_pos rfl] at he
      rcases List.mem_cons.mp he with h1 | h2
      · right; exact h1
      · left; exact List.mem_cons_of_mem _ h2
    · simp only [set, h, if_neg h] at he
      rcases List.mem_cons.mp he with h1 | h2
      · left; exact h1 ▸ List.mem_cons_self _ _
      · rcases ih h2 with h3 | h4
        · left; exact List.mem_cons_of_mem _ h3
        · right; exact h4

theorem mem_erase (l : List (κ × α)) (k : κ) (e : κ × α)
    (he : e ∈ erase l k) : e ∈ l :=
  List.mem_of_mem_filter he

end PyDict

theorem get?_eq_none_of_hasKey_false {κ α : Type} [DecidableEq κ]
    (l : List (κ × α)) (k : κ) (h : PyDict.hasKey l k = false) :
    PyDict.get? l k = none := by
  cases hg : PyDict.get? l k with
  | none => rfl
  | some v =>
    have := (PyDict.hasKey_iff_get? l k).mpr ⟨v, hg⟩
    rw [h] at this
    exact absurd this (by simp)

theorem set_ne_nil {κ α : Type} [DecidableEq κ]
    (l : List (κ × α)) (k : κ) (v : α) : PyDict.set l k v ≠ [] := by
  cases l with
  | nil => simp [PyDict.set]
  | cons e t =>
    by_cases h : e.1 = k <;> simp [PyDict.set, h]

theorem noDivisionless_set (st : Permits) (pid : String) (p : Permit)
    (hst : NoDivisionlessPermit st) (hp : p.divisions ≠ []) :
    NoDivisionlessPermit (PyDict.set st pid p) := by
  intro e he
  rcases PyDict.mem_set st pid p e he with h1 | h2
  · exact hst e h1
  · rw [h2]; exact hp

theorem noDivisionless_erase (st : Permits) (pid : String)
    (hst : NoDivisionlessPermit st) :
    NoDivisionlessPermit (PyDict.erase st pid) := by
  intro e he
  exact hst e (PyDict.mem_erase st pid e he)

theorem applyOp_preserves (st : Permits) (op : RegOp)
    (hst : NoDivisionlessPermit st) (hop : opAddsNonempty op) :
    NoDivisionlessPermit (applyOp st op) := by
  cases op with
  | addPermit pid nm divs =>
    exact noDivisionless_set st pid ⟨nm, divs⟩ hst hop
  | removePermit pid =>
    unfold applyOp remove_permit
    by_cases h : PyDict.hasKey st pid = true
    · simpa [h, save_permits] using noDivisionless_erase st pid hst
    · simpa [h] using hst
  | addDivision pid did dn =>
    unfold applyOp add_division
    cases hg : PyDict.get? st pid with
    | none => simpa [hg] using hst
    | some p =>
      simpa [hg] using
        noDivisionless_set st pid ⟨p.name, PyDict.set p.divisions did dn⟩ hst
          (set_ne_nil p.divisions did dn)
  | removeDivision pid did =>
    unfold applyOp remove_division
    cases hg : PyDict.get? st pid with
    | none => simpa [hg] using hst
    | some p =>
      by_cases hd : PyDict.hasKey p.divisions did = true
      · by_cases hnil : PyDict.erase p.divisions did = []
        · simpa [hg, hd, hnil] using noDivisionless_erase st pid hst
        · simpa [hg, hd, hnil] using
            noDivisionless_set st pid ⟨p.name, PyDict.erase p.divisions did⟩ hst hnil
      · simpa [hg, hd] using hst

theorem runOps_preserves (ops : List RegOp) (st : Permits)
    (hops : ∀ op ∈ ops, opAddsNonempty op) (hst : NoDivisionlessPermit st) :
    NoDivisionlessPermit (runOps st ops) := by
  induction ops generalizing st with
  | nil => simpa [runOps] using hst
  | cons op rest ih =>
    have h1 : NoDivisionlessPermit (applyOp st op) :=
      applyOp_preserves st op hst (hops op (List.mem_cons_self _ _))
    have h2 := ih (applyOp st op) (fun o ho => hops o (List.mem_cons_of_mem _ ho)) h1
    simpa [runOps, List.foldl_cons] using h2

/-- C5, counterexample to the claim as stated: the registry invariant
"after every sequence of registry operations, no permit present in the
registry has an empty divisions map" fails, because `add_permit` accepts
an empty divisions map: after the single operation
`add_permit "9999" "Empty Permit" {}` the registry holds permit `9999`
with an empty divisions map. -/
theorem claimC5_counterexample :
    PyDict.get? (runOps DEFAULT_PERMITS [RegOp.addPermit "9999" "Empty Permit" []])
      "9999" = some ⟨"Empty Permit", []⟩ := by
  rfl

/-- C5 (amended): `remove_division` returns `false` exactly when the
permit or the division is absent; with a succeeding write, removing a
present division deletes it, cascading away the whole permit when it was
the last division, and removing one of two divisions leaves the permit
with exactly the other; and the no-empty-divisions invariant holds after
every sequence of registry operations in which `add_permit` is only ever
given a nonempty divisions map (and all writes succeed). -/
theorem claimC5_amended :
    (∀ (w : Bool) (st : Permits) (pid : String) (did : Nat),
       PyDict.hasKey st pid = false → remove_division w st pid did = (st, false)) ∧
    (∀ (w : Bool) (st : Permits) (pid : String) (did : Nat) (p : Permit),
       PyDict.get? st pid = some p → PyDict.hasKey p.divisions did = false →
       remove_division w st pid did = (st, false)) ∧
    (∀ (st : Permits) (pid : String) (did : Nat) (p : Permit),
       PyDict.get? st pid = some p → PyDict.hasKey p.divisions did = true →
       (remove_division true st pid did).2 = true ∧
       (PyDict.erase p.divisions did = [] →
         PyDict.hasKey (remove_division true st pid did).1 pid = false) ∧
       (PyDict.erase p.divisions did ≠ [] →
         PyDict.get? (remove_division true st pid did).1 pid =
           some ⟨p.name, PyDict.erase p.divisions did⟩)) ∧
    (∀ (st : Permits) (pid nm : String) (d₁ : Nat) (n₁ : String) (d₂ : Nat) (n₂ : String),
       d₂ ≠ d₁ → PyDict.get? st pid = some ⟨nm, [(d₁, n₁), (d₂, n₂)]⟩ →
       PyDict.get? (remove_division true st pid d₁).1 pid = some ⟨nm, [(d₂, n₂)]⟩) ∧
    (∀ (ops : List RegOp) (st : Permits),
       (∀ op ∈ ops, opAddsNonempty op) → NoDivisionlessPermit st →
       NoDivisionlessPermit (runOps st ops)) := by
  refine ⟨?_, ?_, ?_, ?_, ?_⟩
  · intro w st pid did h
    unfold remove_division
    rw [get?_eq_none_of_hasKey_false st pid h]
  · intro w st pid did p hg hd
    unfold remove_division
    rw [hg]
    simp [hd]
  · intro st pid did p hg hd
    unfold remove_division
    rw [hg]
    simp only [hd, if_pos rfl]
    by_cases hnil : PyDict.erase p.divisions did = []
    · refine ⟨by simp [hnil], fun _ => ?_, fun hne => absurd hnil hne⟩
      simp [hnil, PyDict.hasKey_erase]
    · refine ⟨by simp [hnil], fun hh => absurd hh hnil, fun _ => ?_⟩
      simp only [hnil, and_false, if_false, true_and]
      exact PyDict.get?_set_self st pid ⟨p.name, PyDict.erase p.divisions did⟩
  · intro st pid nm d₁ n₁ d₂ n₂ hne hg
    have herase : PyDict.erase [(d₁, n₁), (d₂, n₂)] d₁ = [(d₂, n₂)] := by
      simp [PyDict.erase, List.filter, hne]
    unfold remove_division
    rw [hg]
    have hk : PyDict.hasKey (Permit.mk nm [(d₁, n₁), (d₂, n₂)]).divisions d₁ = true := by
      simp [PyDict.hasKey]
    simp only [hk, if_pos rfl]
    simp only [herase]
    simp only [List.cons_ne_self, and_false, if_false]
    exact PyDict.get?_set_self st pid ⟨nm, [(d₂, n₂)]⟩
  · exact fun ops st h1 h2 => runOps_preserves ops st h1 h2

/-- C5, witness: the amended theorem applied at concrete inputs taken
from the default registry. -/
theorem claimC5_amended_witness :
    (remove_division true DEFAULT_PERMITS "999999" 1 = (DEFAULT_PERMITS, false)) ∧
    (PyDict.get? (remove_division true DEFAULT_PERMITS "250014" 371).1 "250014" =
      some ⟨"Dinosaur Green And Yampa River Permits",
            [(380, "Gates of Lodore, Green River")]⟩) ∧
    NoDivisionlessPermit (runOps DEFAULT_PERMITS [RegOp.removeDivision "250014" 371]) := by
  refine ⟨?_, ?_, ?_⟩
  · exact claimC5_amended.1 true DEFAULT_PERMITS "999999" 1 (by decide)
  · exact claimC5_amended.2.2.2.1 DEFAULT_PERMITS "250014"
      "Dinosaur Green And Yampa River Permits" 371 "Deerlodge Park, Yampa River"
      380 "Gates of Lodore, Green River" (by decide) (by rfl)
  · exact claimC5_amended.2.2.2.2 [RegOp.removeDivision "250014" 371] DEFAULT_PERMITS
      (by intro op hop; rw [List.mem_singleton] at hop; subst hop; trivial)
      (by intro e he
          simp only [DEFAULT_PERMITS, List.mem_singleton] at he
          subst he
          simp)

/-- C6 (code bug): `add_permit` can never return `false`, because
`_save_permits` catches every exception internally; on a failed durable
write (`writeOk = false`) it still returns `true` — and the in-memory
table is then left unchanged, because `self.permits = permits` sits
after the failing `json.dump` inside the guarded block.  The dead
`except` branch of `add_permit` shows the claimed behaviour was the
intent. -/
theorem claimC6_bug :
    ((add_permit false DEFAULT_PERMITS "621743" "Rio Chama" [(1, "Division 1")]).2
       = true) ∧
    ((add_permit false DEFAULT_PERMITS "621743" "Rio Chama" [(1, "Division 1")]).1
       = DEFAULT_PERMITS) ∧
    (∀ (w : Bool) (st : Permits) (pid nm : String) (divs : List (Nat × String)),
       (add_permit w st pid nm divs).2 = true) := by
  exact ⟨rfl, rfl, fun _ _ _ _ _ => rfl⟩

theorem mem_reachable_self (h : Heap) (a : Nat) : a ∈ reachable h a := by
  unfold reachable
  split <;> simp

theorem readPermit_set_fresh (h : Heap) (c pa : Nat) (obj : PyObj)
    (hpa : pa ≠ c)
    (hda : ∀ nm da, PyDict.get? h pa = some (.permitDict nm da) → da ≠ c) :
    readPermit (PyDict.set h c obj) pa = readPermit h pa := by
  unfold readPermit
  rw [PyDict.get?_set_ne h c pa obj hpa]
  cases hg : PyDict.get? h pa with
  | none => rfl
  | some o =>
    cases o with
    | topDict es => rfl
    | permitDict nm da =>
      dsimp only
      rw [PyDict.get?_set_ne h c da obj (hda nm da hg)]
    | divDict des => rfl

theorem viewPermits_set_fresh (h : Heap) (a c : Nat) (obj : PyObj)
    (hc : c ∉ reachable h a) :
    viewPermits (PyDict.set h c obj) a = viewPermits h a := by
  have hac : a ≠ c := fun hh => hc (hh ▸ mem_reachable_self h a)
  unfold viewPermits
  rw [PyDict.get?_set_ne h c a obj hac]
  cases hg : PyDict.get? h a with
  | none => rfl
  | some o =>
    cases o with
    | permitDict nm da => rfl
    | divDict des => rfl
    | topDict es =>
      dsimp only
      refine List.map_congr_left ?_
      intro e he
      have hpa : e.2 ≠ c := by
        intro hh
        apply hc
        unfold reachable
        rw [hg]
        exact List.mem_cons_of_mem _
          (List.mem_append_left _ (hh ▸ List.mem_map_of_mem (fun x => x.2) he))
      have hda : ∀ nm' da', PyDict.get? h e.2 = some (.permitDict nm' da') →
          da' ≠ c := by
        intro nm' da' hl hh
        apply hc
        unfold reachable
        rw [hg]
        refine List.mem_cons_of_mem _ (List.mem_append_right _ ?_)
        rw [List.mem_filterMap]
        exact ⟨e, he, by rw [hl, hh]⟩
      rw [readPermit_set_fresh h c e.2 obj hpa hda]

/-- C7, counterexample to the claim as stated: `get_permits` returns a
*shallow* copy, so mutating a permit's nested divisions map through the
returned value does change the registry's internal state.  Starting from
the default registry heap, copying the permits dict to address 3 and
then executing `copy["250014"]["divisions"][999] = "XXX"` changes what
the registry itself (address 0) observes. -/
theorem claimC7_counterexample :
    viewPermits (get_permits heap0 0 3).1 0 =
      [("250014", some ("Dinosaur Green And Yampa River Permits",
        [(371, "Deerlodge Park, Yampa River")]))] ∧
    viewPermits (mutateDivisions (get_permits heap0 0 3).1 3 "250014" 999 "XXX") 0 =
      [("250014", some ("Dinosaur Green And Yampa River Permits",
        [(371, "Deerlodge Park, Yampa River"), (999, "XXX")]))] := by
  exact ⟨rfl, rfl⟩

/-- C7 (amended): the value returned by `get_permits` is a *shallow*
defensive copy.  Mutating the returned top-level map itself (rebinding
or deleting permit ids — modelled as overwriting the freshly allocated
copy object, an address outside everything reachable from the registry)
leaves the registry's observable state unchanged; but mutating a
permit's nested divisions map through the copy is the same heap write as
mutating it through the registry itself. -/
theorem claimC7_amended :
    (∀ (h : Heap) (a c : Nat) (obj : PyObj), c ∉ reachable h a →
       viewPermits (PyDict.set h c obj) a = viewPermits h a) ∧
    (∀ (h : Heap) (a fresh : Nat) (es : List (String × Nat)) (pid : String)
       (did : Nat) (nm : String), fresh ≠ a →
       PyDict.get? h a = some (.topDict es) →
       mutateDivisions (get_permits h a fresh).1 fresh pid did nm =
         mutateDivisions (get_permits h a fresh).1 a pid did nm) := by
  constructor
  · exact fun h a c obj hc => viewPermits_set_fresh h a c obj hc
  · intro h a fresh es pid did nm hfa hg
    unfold get_permits
    rw [hg]
    dsimp only
    unfold mutateDivisions
    rw [PyDict.get?_set_self h fresh (.topDict es),
        PyDict.get?_set_ne h fresh a (.topDict es) (fun hh => hfa hh.symm), hg]

/-- C7, witness: the amended theorem applied on the concrete default
registry heap — overwriting the copy object at the fresh address 3 does
not change the registry view, and the nested mutation through the copy
coincides with the nested mutation through the registry. -/
theorem claimC7_amended_witness :
    (viewPermits (PyDict.set heap0 3 (.divDict [])) 0 = viewPermits heap0 0) ∧
    (mutateDivisions (get_permits heap0 0 3).1 3 "250014" 999 "XXX" =
       mutateDivisions (get_permits heap0 0 3).1 0 "250014" 999 "XXX") := by
  constructor
  · exact claimC7_amended.1 heap0 0 3 (.divDict []) (by decide)
  · exact claimC7_amended.2 heap0 0 3 [("250014", 1)] "250014" 999 "XXX"
      (by decide) (by rfl)

/-- C10, counterexample to the claim as stated: with division 300 the
only valid one, `min(found_ids) + 50 = 350`, yet candidate 351 is probed
(the early-exit test runs only after the probe) and candidate 1000 is
probed afterwards (the `break` leaves only the current range, and the
next range probes its first candidate before its own early exit). -/
theorem claimC10_counterexample :
    (discoverScan (fun n => n == 300)).1 = [300] ∧
    ((discoverScan (fun n => n == 300)).2.filter (fun n => decide (350 < n))
       = [351, 1000]) := by
  exact ⟨rfl, rfl⟩

/-- C10 (amended): once at least one valid division has been found, each
range's scan stops *immediately after probing* the first candidate whose
id exceeds `min(found_ids) + 50` — no later candidate of that range is
probed — but the `break` exits only the current range, so each
subsequent range still probes its first candidate before stopping (with
only division 300 valid, the probed candidates beyond the bound 350 are
exactly 351 and 1000). -/
theorem claimC10_amended :
    (∀ (valid : Nat → Bool) (div_id : Nat) (rest found : List Nat),
       stopCond (if valid div_id then found ++ [div_id] else found) div_id = true →
       (scanRange valid (div_id :: rest) found).2 = [div_id]) ∧
    (352 ∉ (discoverScan (fun n => n == 300)).2 ∧
     1001 ∉ (discoverScan (fun n => n == 300)).2 ∧
     351 ∈ (discoverScan (fun n => n == 300)).2 ∧
     1000 ∈ (discoverScan (fun n => n == 300)).2) := by
  constructor
  · intro valid div_id rest found h
    simp only [scanRange, h, if_true]
  · exact ⟨by decide, by decide, by decide, by decide⟩

/-- C10, witness: the immediate-stop clause of the amended theorem at a
concrete input — after finding 300, probing 351 ends the range at once. -/
theorem claimC10_amended_witness :
    (scanRange (fun n => n == 300) [351, 352, 353] [300]).2 = [351] :=
  claimC10_amended.1 (fun n => n == 300) 351 [352, 353] [300] (by decide)

theorem Store.get_set_self (s : Store) (k : String) (v : Finset String) :
    Store.get (Store.set s k v) k = v := by
  unfold Store.get Store.set
  rw [PyDict.get?_set_self]

theorem Store.get_set_ne (s : Store) (k k' : String) (v : Finset String)
    (h : k' ≠ k) : Store.get (Store.set s k v) k' = Store.get s k' := by
  unfold Store.get Store.set
  rw [PyDict.get?_set_ne s k k' v h]

theorem runNormal_fst (fetch : FetchOracle) (l : List DivEntry) (st : Store) :
    (runNormal fetch l st).1 = seedStore fetch l st := by
  induction l generalizing st with
  | nil => rfl
  | cons e rest ih =>
    simp only [runNormal, stepDivision, seedStore]
    exact ih _

theorem runFirstRun_fst (fetch : FetchOracle) (l : List DivEntry) (st : Store) :
    (runFirstRun fetch l st).1 = seedStore fetch l st := by
  induction l generalizing st with
  | nil => rfl
  | cons e rest ih =>
    simp only [runFirstRun, seedStore]
    exact ih _

theorem seedStore_get_not_mem (fetch : FetchOracle) (l : List DivEntry)
    (st : Store) (k : String) (hk : k ∉ l.map keyOf) :
    Store.get (seedStore fetch l st) k = Store.get st k := by
  induction l generalizing st with
  | nil => rfl
  | cons e rest ih =>
    simp only [List.map_cons, List.mem_cons] at hk
    push_neg at hk
    simp only [seedStore]
    rw [ih _ hk.2, Store.get_set_ne _ _ _ _ hk.1]

theorem seedStore_get_mem (fetch : FetchOracle) (l : List DivEntry) (st : Store)
    (e : DivEntry) (hnd : (l.map keyOf).Nodup) (he : e ∈ l) :
    Store.get (seedStore fetch l st) (keyOf e) =
      current_available (fetch e.permit_id e.division_id) := by
  induction l generalizing st with
  | nil => cases he
  | cons f rest ih =>
    simp only [List.map_cons, List.nodup_cons] at hnd
    rcases List.mem_cons.mp he with h1 | h2
    · subst h1
      simp only [seedStore]
      rw [seedStore_get_not_mem fetch rest _ _ hnd.1, Store.get_set_self]
    · simp only [seedStore]
      exact ih _ hnd.2 h2

theorem flatMap_congr {α β : Type} {l : List α} {f g : α → List β}
    (h : ∀ a ∈ l, f a = g a) : l.flatMap f = l.flatMap g := by
  induction l with
  | nil => rfl
  | cons a t ih =>
    simp only [List.flatMap_cons]
    rw [h a (List.mem_cons_self _ _), ih (fun b hb => h b (List.mem_cons_of_mem _ hb))]

theorem runNormal_msgs (fetch : FetchOracle) (l : List DivEntry) (st : Store)
    (hnd : (l.map keyOf).Nodup) :
    (runNormal fetch l st).2 =
      l.flatMap (fun f => notifOf fetch (Store.get st (keyOf f)) f) := by
  induction l generalizing st with
  | nil => rfl
  | cons e rest ih =>
    simp only [List.map_cons, List.nodup_cons] at hnd
    simp only [runNormal, stepDivision, List.flatMap_cons]
    congr 1
    rw [ih _ hnd.2]
    refine flatMap_congr ?_
    intro f hf
    have hne : keyOf f ≠ keyOf e := by
      intro hh
      exact hnd.1 (hh ▸ List.mem_map_of_mem keyOf hf)
    rw [Store.get_set_ne _ _ _ _ hne]

theorem mem_notifOf_shape (fetch : FetchOracle) (prev : Finset String)
    (f : DivEntry) (m : Msg) (hm : m ∈ notifOf fetch prev f) :
    ∃ lines, m = Msg.notification f.permit_id f.division_id f.permit_name
      f.division_name lines := by
  simp only [notifOf] at hm
  split at hm
  · cases hm
  · exact ⟨_, List.mem_singleton.mp hm⟩

theorem notificationsFor_notifOf_self (fetch : FetchOracle) (prev : Finset String)
    (e : DivEntry) :
    notificationsFor e.permit_id e.division_id (notifOf fetch prev e) =
      notifOf fetch prev e := by
  unfold notificationsFor
  rw [List.filter_eq_self]
  intro m hm
  rcases mem_notifOf_shape fetch prev e m hm with ⟨lines, rfl⟩
  simp

theorem notificationsFor_notifOf_ne (fetch : FetchOracle) (prev : Finset String)
    (e f : DivEntry)
    (h : f.permit_id ≠ e.permit_id ∨ f.division_id ≠ e.division_id) :
    notificationsFor e.permit_id e.division_id (notifOf fetch prev f) = [] := by
  unfold notificationsFor
  rw [List.filter_eq_nil_iff]
  intro m hm
  rcases mem_notifOf_shape fetch prev f m hm with ⟨lines, rfl⟩
  rcases h with h | h <;> simp [h]

theorem notificationsFor_append (pid : String) (did : Nat) (l₁ l₂ : List Msg) :
    notificationsFor pid did (l₁ ++ l₂) =
      notificationsFor pid did l₁ ++ notificationsFor pid did l₂ := by
  unfold notificationsFor
  exact List.filter_append _ _

theorem notificationsFor_flatMap_nil {α : Type} (pid : String) (did : Nat)
    (l : List α) (F : α → List Msg)
    (h : ∀ a ∈ l, notificationsFor pid did (F a) = []) :
    notificationsFor pid did (l.flatMap F) = [] := by
  induction l with
  | nil => rfl
  | cons a t ih =>
    rw [List.flatMap_cons, notificationsFor_append, h a (List.mem_cons_self _ _),
        ih (fun b hb => h b (List.mem_cons_of_mem _ hb))]
    rfl

theorem tag_ne_of_key_not_mem (e g : DivEntry) (rest : List DivEntry)
    (hg : g ∈ rest) (hnotin : keyOf e ∉ rest.map keyOf) :
    g.permit_id ≠ e.permit_id ∨ g.division_id ≠ e.division_id := by
  by_contra hc
  push_neg at hc
  have hkey : keyOf g = keyOf e := by
    unfold keyOf state_key
    rw [hc.1, hc.2]
  exact hnotin (hkey ▸ List.mem_map_of_mem keyOf hg)

theorem notifications_flatMap (fetch : FetchOracle) (st : Store) (e : DivEntry)
    (pairs : List DivEntry) (hnd : (pairs.map keyOf).Nodup) (he : e ∈ pairs) :
    notificationsFor e.permit_id e.division_id
      (pairs.flatMap (fun f => notifOf fetch (Store.get st (keyOf f)) f)) =
      notifOf fetch (Store.get st (keyOf e)) e := by
  induction pairs with
  | nil => cases he
  | cons f rest ih =>
    simp only [List.map_cons, List.nodup_cons] at hnd
    rw [List.flatMap_cons, notificationsFor_append]
    rcases List.mem_cons.mp he with h1 | h2
    · subst h1
      rw [notificationsFor_notifOf_self,
          notificationsFor_flatMap_nil _ _ rest _
            (fun g hg => notificationsFor_notifOf_ne fetch _ e g
              (tag_ne_of_key_not_mem e g rest hg hnd.1)),
          List.append_nil]
    · have hf : f.permit_id ≠ e.permit_id ∨ f.division_id ≠ e.division_id := by
        by_contra hc
        push_neg at hc
        have hkey : keyOf f = keyOf e := by
          unfold keyOf state_key
          rw [hc.1, hc.2]
        exact hnd.1 (hkey.symm ▸ List.mem_map_of_mem keyOf h2)
      rw [notificationsFor_notifOf_ne fetch _ e f hf, List.nil_append]
      exact ih hnd.2 h2

theorem notifications_cycle (fetch : FetchOracle) (reg : Permits)
    (ms : MonitorState) (e : DivEntry) (hfr : ms.is_first_run = false)
    (hnd : (pairKeys reg).Nodup) (he : e ∈ divisionPairs reg) :
    notificationsFor e.permit_id e.division_id (check_and_notify fetch reg ms).2 =
      notifOf fetch (Store.get ms.previous_availability (keyOf e)) e := by
  unfold check_and_notify
  rw [hfr]
  simp only [Bool.false_eq_true, if_false]
  rw [runNormal_msgs fetch _ _ hnd]
  exact notifications_flatMap fetch _ e _ hnd he

/-- C1: the per-division "new dates" computed by an availability cycle
are exactly `current − previous` (`new_dates` is the set difference of
line 822); in particular `new_dates A A = ∅`, and a division whose
fetched set equals its stored set emits no notification in that cycle. -/
theorem claimC1_diff :
    (∀ A : Finset String, new_dates A A = ∅) ∧
    (∀ current previous : Finset String,
       new_dates current previous = current \ previous) ∧
    (∀ (fetch : FetchOracle) (reg : Permits) (ms : MonitorState) (e : DivEntry),
       ms.is_first_run = false → (pairKeys reg).Nodup → e ∈ divisionPairs reg →
       Store.get ms.previous_availability (keyOf e) =
         current_available (fetch e.permit_id e.division_id) →
       notificationsFor e.permit_id e.division_id
         (check_and_notify fetch reg ms).2 = []) := by
  refine ⟨fun A => Finset.sdiff_self A, fun c p => rfl, ?_⟩
  intro fetch reg ms e hfr hnd he hprev
  rw [notifications_cycle fetch reg ms e hfr hnd he, hprev]
  simp [notifOf, new_dates, current_available]

/-- C1, witness: a division whose fetched set equals its stored one is
silent in the cycle. -/
theorem claimC1_diff_witness :
    notificationsFor "250014" 371
      (check_and_notify fetchOne reg1 ⟨storeC3, false⟩).2 = [] :=
  claimC1_diff.2.2 fetchOne reg1 ⟨storeC3, false⟩
    ⟨"250014", "Dinosaur Green And Yampa River Permits", 371,
     "Deerlodge Park, Yampa River"⟩ rfl (by decide) (by decide) (by decide)

/-- C2: with no persisted state (empty store, first-run flag set), the
first availability cycle sends exactly the one summary message (so zero
new-availability notifications), and afterwards the store holds, for
every registry division, exactly the set of dates the provider reported
with `remaining > 0` — and nothing else. -/
theorem claimC2_first_run (fetch : FetchOracle) (reg : Permits) (ms : MonitorState)
    (hfr : ms.is_first_run = true) (hempty : ms.previous_availability = [])
    (hnd : (pairKeys reg).Nodup) :
    ((check_and_notify fetch reg ms).2 =
       [Msg.summary (runFirstRun fetch (divisionPairs reg) []).2]) ∧
    (∀ e ∈ divisionPairs reg,
       Store.get (check_and_notify fetch reg ms).1.previous_availability (keyOf e) =
         current_available (fetch e.permit_id e.division_id)) ∧
    (∀ k, k ∉ pairKeys reg →
       Store.get (check_and_notify fetch reg ms).1.previous_availability k = ∅) := by
  have h1 : check_and_notify fetch reg ms =
      (⟨seedStore fetch (divisionPairs reg) [], false⟩,
       [Msg.summary (runFirstRun fetch (divisionPairs reg) []).2]) := by
    unfold check_and_notify
    rw [hfr, if_pos rfl, hempty]
    simp only [runFirstRun_fst]
  rw [h1]
  refine ⟨rfl, ?_, ?_⟩
  · intro e he
    exact seedStore_get_mem fetch _ [] e hnd he
  · intro k hk
    rw [seedStore_get_not_mem fetch _ [] k hk]
    rfl

/-- C2, witness: the first cycle over the one-division registry sends
only the summary message. -/
theorem claimC2_first_run_witness :
    (check_and_notify fetchOne reg1 ⟨[], true⟩).2 =
      [Msg.summary (runFirstRun fetchOne (divisionPairs reg1) []).2] :=
  (claimC2_first_run fetchOne reg1 ⟨[], true⟩ rfl rfl (by decide)).1

/-- C3, counterexample to the claim as stated: a failed fetch does *not*
leave the stored set unchanged — `check_division_availability` returns
`{}` on failure and the cycle unconditionally writes that empty set
back, erasing the previously remembered date. -/
theorem claimC3_counterexample :
    Store.get storeC3 "250014:371" = {"2025-07-10"} ∧
    Store.get (check_and_notify fetchFail reg1
        ⟨storeC3, false⟩).1.previous_availability "250014:371" = ∅ := by
  exact ⟨rfl, by decide⟩

/-- C3 (amended): for a division whose fetch fails (non-200, malformed
body, or raised error) the cycle emits no notification for that
division, but the stored set is *overwritten with the empty set* rather
than left unchanged (so the dates may be re-notified once the provider
recovers). -/
theorem claimC3_amended (fetch : FetchOracle) (reg : Permits) (ms : MonitorState)
    (e : DivEntry) (hfr : ms.is_first_run = false) (hnd : (pairKeys reg).Nodup)
    (he : e ∈ divisionPairs reg)
    (hfail : isFetchFailure (fetch e.permit_id e.division_id) = true) :
    notificationsFor e.permit_id e.division_id
      (check_and_notify fetch reg ms).2 = [] ∧
    Store.get (check_and_notify fetch reg ms).1.previous_availability (keyOf e)
      = ∅ := by
  have hcur : current_available (fetch e.permit_id e.division_id) = ∅ := by
    unfold current_available check_division_availability
    cases hf : fetch e.permit_id e.division_id <;>
      simp [isFetchFailure, hf] at hfail ⊢
  constructor
  · rw [notifications_cycle fetch reg ms e hfr hnd he]
    have hcur' : ((check_division_availability
        (fetch e.permit_id e.division_id)).map Prod.fst).toFinset = ∅ := hcur
    simp [notifOf, new_dates, hcur']
  · have h1 : (check_and_notify fetch reg ms).1.previous_availability =
        seedStore fetch (divisionPairs reg) ms.previous_availability := by
      unfold check_and_notify
      rw [hfr]
      simp only [Bool.false_eq_true, if_false]
      exact runNormal_fst fetch _ _
    rw [h1, seedStore_get_mem fetch _ _ e hnd he, hcur]

/-- C3, witness: the amended theorem at the concrete failing provider. -/
theorem claimC3_amended_witness :
    notificationsFor "250014" 371
      (check_and_notify fetchFail reg1 ⟨storeC3, false⟩).2 = [] ∧
    Store.get (check_and_notify fetchFail reg1
        ⟨storeC3, false⟩).1.previous_availability
      (keyOf ⟨"250014", "Dinosaur Green And Yampa River Permits", 371,
        "Deerlodge Park, Yampa River"⟩) = ∅ :=
  claimC3_amended fetchFail reg1 ⟨storeC3, false⟩
    ⟨"250014", "Dinosaur Green And Yampa River Permits", 371,
     "Deerlodge Park, Yampa River"⟩ rfl (by decide) (by decide) rfl

/-- C4, counterexample to the claim as stated: a corrupt-but-existing
state file loads as the empty store (never fatal), but
`is_first_run = not os.path.exists(STATE_FILE)` is then *false*, so the
next availability cycle is not a silent seeding: it runs the normal diff
against the empty store and emits a new-availability notification. -/
theorem claimC4_counterexample :
    load_state true none = [] ∧
    is_first_run true = false ∧
    ((check_and_notify fetchOne reg1
        ⟨load_state true none, is_first_run true⟩).2.map isNewAvailMsg = [true]) := by
  exact ⟨rfl, rfl, by decide⟩

/-- C4 (amended): loading a missing or corrupt state file yields the
empty store and is never fatal; the *missing*-file case sets the
first-run flag, and the first cycle then seeds silently with only the
summary message; the *corrupt*-file case does not set the flag (the
next cycle follows normal diff semantics against the empty store, as
the counterexample shows). -/
theorem claimC4_amended :
    (∀ contents, load_state false contents = []) ∧
    (load_state true none = []) ∧
    (is_first_run false = true ∧ is_first_run true = false) ∧
    (∀ (fetch : FetchOracle) (reg : Permits) (st : Store),
       (check_and_notify fetch reg ⟨st, is_first_run false⟩).2 =
         [Msg.summary (runFirstRun fetch (divisionPairs reg) st).2]) := by
  exact ⟨fun _ => rfl, rfl, ⟨rfl, rfl⟩, fun _ _ _ => rfl⟩

theorem dateLines_map_fst (cd : List (String × AvailInfo)) (nd : Finset String) :
    (dateLines cd nd).map Prod.fst = nd.sort (· ≤ ·) := by
  unfold dateLines
  rw [List.map_map]
  have hcomp : (Prod.fst ∘ fun d => (d, infoFor cd d)) = id := rfl
  rw [hcomp, List.map_id]

theorem dateLines_sorted (cd : List (String × AvailInfo)) (nd : Finset String) :
    List.Sorted (· < ·) ((dateLines cd nd).map Prod.fst) := by
  rw [dateLines_map_fst]
  exact Finset.sort_sorted_lt nd

theorem dateLines_toFinset (cd : List (String × AvailInfo)) (nd : Finset String) :
    ((dateLines cd nd).map Prod.fst).toFinset = nd := by
  rw [dateLines_map_fst]
  exact Finset.sort_toFinset _ nd

/-- C9: in a normal cycle, a division with newly-available dates emits
exactly one aggregated notification; its date lines (`dateLines`) list,
in Python's sorted order, exactly the elements of the newly-available
set — strictly ascending, which on fixed-width ISO `YYYY-MM-DD` strings
is ascending calendar order. -/
theorem claimC9_sorted (fetch : FetchOracle) (reg : Permits) (ms : MonitorState)
    (e : DivEntry) (hfr : ms.is_first_run = false) (hnd : (pairKeys reg).Nodup)
    (he : e ∈ divisionPairs reg)
    (hnew : new_dates (current_available (fetch e.permit_id e.division_id))
        (Store.get ms.previous_availability (keyOf e)) ≠ ∅) :
    (notificationsFor e.permit_id e.division_id
        (check_and_notify fetch reg ms).2 =
      [Msg.notification e.permit_id e.division_id e.permit_name e.division_name
        (dateLines (check_division_availability (fetch e.permit_id e.division_id))
          (new_dates (current_available (fetch e.permit_id e.division_id))
            (Store.get ms.previous_availability (keyOf e))))]) ∧
    (∀ (cd : List (String × AvailInfo)) (nd : Finset String),
       ((dateLines cd nd).map Prod.fst = nd.sort (· ≤ ·)) ∧
       List.Sorted (· < ·) ((dateLines cd nd).map Prod.fst) ∧
       ((dateLines cd nd).map Prod.fst).toFinset = nd) := by
  refine ⟨?_, fun cd nd =>
    ⟨dateLines_map_fst cd nd, dateLines_sorted cd nd, dateLines_toFinset cd nd⟩⟩
  rw [notifications_cycle fetch reg ms e hfr hnd he]
  have hcd : ((check_division_availability
      (fetch e.permit_id e.division_id)).map Prod.fst).toFinset =
      current_available (fetch e.permit_id e.division_id) := rfl
  simp only [notifOf, hcd]
  rw [if_neg hnew]

theorem monitorWithName_len (o : DiscoveryOracle) (w : Bool) (st : Permits)
    (pid : String) (preMsgs : List String) (nm : String) :
    (monitorWithName o w st pid preMsgs nm).2.length = preMsgs.length + 2 := by
  unfold monitorWithName
  split
  · split <;> simp
  · simp

theorem monitorDivisionNamed_len (o : DiscoveryOracle) (w : Bool) (st : Permits)
    (pid didStr : String) (did : Nat) (preMsgs : List String) (dn : String) :
    (monitorDivisionNamed o w st pid didStr did preMsgs dn).2.length =
        preMsgs.length + 2 ∨
    (monitorDivisionNamed o w st pid didStr did preMsgs dn).2.length =
        preMsgs.length + 1 := by
  unfold monitorDivisionNamed
  split
  · split <;> (dsimp only; split <;> simp)
  · split
    · simp
    · split <;> simp

theorem handle_start_monitoring_len (o : DiscoveryOracle) (w : Bool)
    (st : Permits) (command : String) :
    1 ≤ (handle_start_monitoring o w st command).2.length ∧
    (handle_start_monitoring o w st command).2.length ≤ 3 := by
  unfold handle_start_monitoring
  split
  · simp
  · simp
  · split
    · simp
    · split
      · rw [monitorWithName_len]
        simp
      · rw [monitorWithName_len]
        simp

theorem handle_monitor_division_len (o : DiscoveryOracle) (w : Bool)
    (st : Permits) (command : String) :
    1 ≤ (handle_monitor_division o w st command).2.length ∧
    (handle_monitor_division o w st command).2.length ≤ 3 := by
  unfold handle_monitor_division
  split
  · split
    · simp
    · split
      · rcases monitorDivisionNamed_len o w st _ _ _ [] _ with h | h <;>
          rw [h] <;> simp
      · rcases monitorDivisionNamed_len o w st _ _ _ [_] _ with h | h <;>
          rw [h] <;> simp
  · simp

theorem handle_stop_monitoring_len (w : Bool) (st : Permits) (command : String) :
    (handle_stop_monitoring w st command).2.length = 1 := by
  unfold handle_stop_monitoring
  split
  · split
    · split <;> simp
    · simp
  · simp

theorem handle_unmonitor_division_len (w : Bool) (st : Permits)
    (command : String) :
    (handle_unmonitor_division w st command).2.length = 1 := by
  unfold handle_unmonitor_division
  split
  · split
    · simp
    · split
      · simp
      · split
        · split
          · split <;> simp
          · simp
        · simp
  · simp

theorem handle_list_permits_len (st : Permits) :
    (handle_list_permits st).length = 1 := by
  unfold handle_list_permits
  split <;> simp

theorem unmonitor_shape (t : String) (h : startsWithPy t "/unmonitor" = true) :
    ∃ cs, t.data = '/' :: 'u' :: cs := by
  unfold startsWithPy at h
  have hd : ("/unmonitor" : String).data = '/' :: 'u' :: "nmonitor".data := rfl
  rw [hd] at h
  cases ht : t.data with
  | nil => rw [ht] at h; simp [List.isPrefixOf] at h
  | cons a as =>
    cases as with
    | nil => rw [ht] at h; simp [List.isPrefixOf] at h
    | cons b bs =>
      rw [ht] at h
      simp only [List.isPrefixOf, Bool.and_eq_true, beq_iff_eq] at h
      exact ⟨bs, by rw [← h.1, ← h.2.1]⟩


theorem unmonitor_not_monitor (t : String)
    (h : startsWithPy t "/unmonitor" = true) :
    ¬ startsWithPy t "/monitor_division" = true ∧
    ¬ startsWithPy t "/monitor" = true := by
  rcases unmonitor_shape t h with ⟨cs, hcs⟩
  unfold startsWithPy
  rw [hcs]
  constructor
  · have hd : ("/monitor_division" : String).data =
        '/' :: 'm' :: "onitor_division".data := rfl
    rw [hd]
    simp [List.isPrefixOf, show ('m' == 'u') = false from rfl]
  · have hd : ("/monitor" : String).data = '/' :: 'm' :: "onitor".data := rfl
    rw [hd]
    simp [List.isPrefixOf, show ('m' == 'u') = false from rfl]

/-- C8, counterexample to the claim as stated: a well-formed `/monitor`
command from the right channel sends *three* messages (two discovery
progress messages and the result), not exactly one; and `/list extra` —
a recognized command verb with malformed arguments — matches none of the
dispatch tests and sends *zero* replies. -/
theorem claimC8_counterexample :
    ((process_telegram_update "42" oracleA true []
        ⟨some ⟨some "/monitor 123", "42"⟩⟩).2).length = 3 ∧
    (process_telegram_update "42" oracleA true []
        ⟨some ⟨some "/list extra", "42"⟩⟩).2 = [] := by
  exact ⟨by decide, by decide⟩

/-- C8 (amended): text from other senders, updates without text, and
unrecognized text (including `/list`/`/help` with trailing arguments,
which fail the exact-match tests) produce no reply; every dispatched
command produces between one and three replies; and `/unmonitor`,
`/unmonitor_division`, `/list` and `/help` produce exactly one reply
(`/monitor` and `/monitor_division` may precede their result with one or
two discovery progress messages). -/
theorem claimC8_amended :
    (∀ (channel_id : String) (o : DiscoveryOracle) (w : Bool) (st : Permits)
       (u : TgUpdate),
       (∀ m, u.message? = some m → ∀ t, m.text? = some t →
          (m.chat_id ≠ channel_id ∨ recognizedCmd (pyStrip t) = false)) →
       (process_telegram_update channel_id o w st u).2 = []) ∧
    (∀ (channel_id : String) (o : DiscoveryOracle) (w : Bool) (st : Permits)
       (m : TgMessage) (t : String),
       m.text? = some t → m.chat_id = channel_id →
       recognizedCmd (pyStrip t) = true →
       1 ≤ (process_telegram_update channel_id o w st ⟨some m⟩).2.length ∧
       (process_telegram_update channel_id o w st ⟨some m⟩).2.length ≤ 3) ∧
    (∀ (channel_id : String) (o : DiscoveryOracle) (w : Bool) (st : Permits)
       (m : TgMessage) (t : String),
       m.text? = some t → m.chat_id = channel_id →
       (startsWithPy (pyStrip t) "/unmonitor" = true ∨ pyStrip t = "/list" ∨
        pyStrip t = "/help") →
       (process_telegram_update channel_id o w st ⟨some m⟩).2.length = 1) := by
  refine ⟨?_, ?_, ?_⟩
  · intro channel_id o w st u h
    cases hu : u.message? with
    | none => simp only [process_telegram_update, hu]
    | some m =>
      cases htx : m.text? with
      | none => simp only [process_telegram_update, hu, htx]
      | some t =>
        have hmt := h m hu t htx
        simp only [process_telegram_update, hu, htx]
        by_cases hc : m.chat_id ≠ channel_id
        · rw [if_pos hc]
        · rw [if_neg hc]
          rcases hmt with hchat | hrec
          · exact absurd hchat hc
          · unfold recognizedCmd at hrec
            simp only [Bool.or_eq_false_iff] at hrec
            rw [if_neg (by simp [hrec.1.1.1.1.1]),
                if_neg (by simp [hrec.1.1.1.1.2]),
                if_neg (by simp [hrec.1.1.1.2]),
                if_neg (by simp [hrec.1.1.2]),
                if_neg (by simp [hrec.1.2]),
                if_neg (by simp [hrec.2])]
  · intro channel_id o w st m t htx hchat hrec
    simp only [process_telegram_update, htx]
    rw [if_neg (by simp [hchat])]
    by_cases h1 : startsWithPy (pyStrip t) "/monitor_division" = true
    · rw [if_pos h1]
      exact handle_monitor_division_len o w st (pyStrip t)
    · rw [if_neg h1]
      by_cases h2 : startsWithPy (pyStrip t) "/unmonitor_division" = true
      · rw [if_pos h2, handle_unmonitor_division_len]
        exact ⟨Nat.le_refl 1, by decide⟩
      · rw [if_neg h2]
        by_cases h3 : startsWithPy (pyStrip t) "/monitor" = true
        · rw [if_pos h3]
          exact handle_start_monitoring_len o w st (pyStrip t)
        · rw [if_neg h3]
          by_cases h4 : startsWithPy (pyStrip t) "/unmonitor" = true
          · rw [if_pos h4, handle_stop_monitoring_len]
            exact ⟨Nat.le_refl 1, by decide⟩
          · rw [if_neg h4]
            by_cases h5 : (pyStrip t == "/list") = true
            · rw [if_pos h5]
              rw [handle_list_permits_len]
              exact ⟨Nat.le_refl 1, by decide⟩
            · rw [if_neg h5]
              by_cases h6 : (pyStrip t == "/help") = true
              · rw [if_pos h6]
                refine ⟨?_, ?_⟩ <;> simp [help_reply]
              · unfold recognizedCmd at hrec
                simp only [Bool.or_eq_true] at hrec
                rcases hrec with ((((hx | hx) | hx) | hx) | hx) | hx
                · exact absurd hx h1
                · exact absurd hx h2
                · exact absurd hx h3
                · exact absurd hx h4
                · exact absurd hx h5
                · exact absurd hx h6
  · intro channel_id o w st m t htx hchat hdisj
    simp only [process_telegram_update, htx]
    rw [if_neg (by simp [hchat])]
    rcases hdisj with hu | hl | hh
    · rcases unmonitor_not_monitor (pyStrip t) hu with ⟨hn1, hn3⟩
      rw [if_neg hn1]
      by_cases h2 : startsWithPy (pyStrip t) "/unmonitor_division" = true
      · rw [if_pos h2]
        exact handle_unmonitor_division_len w st (pyStrip t)
      · rw [if_neg h2, if_neg hn3, if_pos hu]
        exact handle_stop_monitoring_len w st (pyStrip t)
    · rw [hl]
      rw [if_neg (by decide), if_neg (by decide), if_neg (by decide),
          if_neg (by decide), if_pos (by decide)]
      exact handle_list_permits_len st
    · rw [hh]
      rw [if_neg (by decide), if_neg (by decide), if_neg (by decide),
          if_neg (by decide), if_neg (by decide), if_pos (by decide)]
      rfl

/-- C8, witness: the amended theorem at concrete inputs — unrecognized
text is silent, a dispatched `/monitor` sends between one and three
messages, and `/unmonitor` of a monitored permit sends exactly one. -/
theorem claimC8_amended_witness :
    (process_telegram_update "42" oracleA true []
        ⟨some ⟨some "hello", "42"⟩⟩).2 = [] ∧
    (1 ≤ (process_telegram_update "42" oracleA true []
        ⟨some ⟨some "/monitor 123", "42"⟩⟩).2.length ∧
     (process_telegram_update "42" oracleA true []
        ⟨some ⟨some "/monitor 123", "42"⟩⟩).2.length ≤ 3) ∧
    (process_telegram_update "42" oracleA true DEFAULT_PERMITS
        ⟨some ⟨some "/unmonitor 250014", "42"⟩⟩).2.length = 1 := by
  refine ⟨?_, ?_, ?_⟩
  · refine claimC8_amended.1 "42" oracleA true [] _ ?_
    intro m hm t ht
    cases Option.some.inj hm
    cases Option.some.inj ht
    exact Or.inr (by decide)
  · exact claimC8_amended.2.1 "42" oracleA true [] ⟨some "/monitor 123", "42"⟩
      "/monitor 123" rfl rfl (by decide)
  · exact claimC8_amended.2.2 "42" oracleA true DEFAULT_PERMITS
      ⟨some "/unmonitor 250014", "42"⟩ "/unmonitor 250014" rfl rfl
      (Or.inl (by decide))

/-- C9, witness: with two newly available dates reported out of calendar
order, the cycle emits for the division exactly the one aggregated
message carrying the sorted date lines. -/
theorem claimC9_sorted_witness :
    notificationsFor "250014" 371
        (check_and_notify fetchTwo reg1 ⟨[], false⟩).2 =
      [Msg.notification "250014" 371 "Dinosaur Green And Yampa River Permits"
        "Deerlodge Park, Yampa River"
        (dateLines (check_division_availability (fetchTwo "250014" 371))
          (new_dates (current_available (fetchTwo "250014" 371))
            (Store.get [] (keyOf ⟨"250014",
              "Dinosaur Green And Yampa River Permits", 371,
              "Deerlodge Park, Yampa River"⟩))))] :=
  (claimC9_sorted fetchTwo reg1 ⟨[], false⟩
    ⟨"250014", "Dinosaur Green And Yampa River Permits", 371,
     "Deerlodge Park, Yampa River"⟩ rfl (by decide) (by decide) (by decide)).1

end RiverBot
